import Mathlib

/-!
Verification of the dynamic metrics registry in `workflow/metrics/metrics.go`.

The registry state (`Metrics`) and its operations (`UpsertCustomMetric`,
`StopRealtimeMetricsForKey`, `GetCustomMetric`, `allMetrics`, the workqueue
instrument accessors) are embedded shallowly: Go maps become association
lists over `String` keys, Go slices become Lean lists, `prometheus.Metric`
becomes a structural `Instrument` value, `time.Now()` becomes an explicit
timestamp argument, and a method that can fail returns the (possibly
unchanged) state together with an optional error value, mirroring the Go
receiver-mutation discipline where every error return happens before the
first mutation.
-/

namespace ArgoMetrics

/-! ### Go map semantics on association lists -/

/-- Lookup in a Go map modelled as an association list: the value bound to
the first occurrence of the key, if any. -/
def mapLookup {β : Type} (m : List (String × β)) (k : String) : Option β :=
  match m with
  | [] => none
  | (k', v) :: rest => if k' = k then some v else mapLookup rest k

/-- Go map assignment `m[k] = v`: replace the binding of `k` if present,
otherwise add it. -/
def mapInsert {β : Type} (m : List (String × β)) (k : String) (v : β) : List (String × β) :=
  match m with
  | [] => [(k, v)]
  | (k', v') :: rest => if k' = k then (k, v) :: rest else (k', v') :: mapInsert rest k v

/-- Go `delete(m, k)`: drop the binding of `k` if present. -/
def mapErase {β : Type} (m : List (String × β)) (k : String) : List (String × β) :=
  match m with
  | [] => []
  | (k', v') :: rest => if k' = k then rest else (k', v') :: mapErase rest k

/-- A loop of Go `delete(m, k)` calls, one per key in `ks`. -/
def eraseList {β : Type} (m : List (String × β)) (ks : List String) : List (String × β) :=
  ks.foldl mapErase m

/-- Insertion into a Go `map[_]bool` used as a set (`m[k] = true`). -/
def setInsert {α : Type} [DecidableEq α] (s : List α) (a : α) : List α :=
  if a ∈ s then s else s ++ [a]

/-- The keys of an association list are pairwise distinct.  Every Go map has
this property; association lists built from `[]` by `mapInsert`/`mapErase`
preserve it. -/
def keysNodup {β : Type} (m : List (String × β)) : Prop :=
  (m.map Prod.fst).Nodup

/-! ### Instruments and descriptors -/

/-- The shape of a prometheus instrument: counter, gauge, or histogram with
its bucket upper bounds (exact rationals; the Go float literals used in this
file are all exactly representable). -/
inductive InstrKind : Type
  | counter : InstrKind
  | gauge : InstrKind
  | histogram (buckets : List ℚ) : InstrKind
deriving DecidableEq, Repr

/-- A `prometheus.Metric` as far as the registry observes it: its kind and
the identity data of its descriptor (fully qualified name, help text,
constant labels). -/
structure Instrument : Type where
  kind : InstrKind
  name : String
  help : String
  constLabels : List (String × String)
deriving DecidableEq, Repr

/-- A `prometheus.Desc` identity as rendered by `Desc().String()`: the
rendering is injective on (name, help, constant labels), so the descriptor
string key of the Go maps is modelled by this triple. -/
structure Desc : Type where
  fqName : String
  help : String
  constLabels : List (String × String)
deriving DecidableEq, Repr

/-- `newMetric.Desc()` for the instruments this registry handles. -/
def Instrument.desc (i : Instrument) : Desc :=
  { fqName := i.name, help := i.help, constLabels := i.constLabels }

def argoNamespace : String := "argo"

def workflowsSubsystem : String := "workflows"

/-- Modelled from the spec: the instrument factory (spec section 2) builds a
counter from a name, help text and constant label set; its Go source is in a
repository file not under src/. The `argoNamespace` and `workflowsSubsystem`
constants of metrics.go prefix the fully qualified name. -/
def newCounter (name help : String) (labels : List (String × String)) : Instrument :=
  { kind := .counter
    name := argoNamespace ++ "_" ++ workflowsSubsystem ++ "_" ++ name
    help := help
    constLabels := labels }

/-- Modelled from the spec: the instrument factory builds a gauge from a
name, help text and constant label set; its Go source is not under src/. -/
def newGauge (name help : String) (labels : List (String × String)) : Instrument :=
  { kind := .gauge
    name := argoNamespace ++ "_" ++ workflowsSubsystem ++ "_" ++ name
    help := help
    constLabels := labels }

/-- Modelled from the spec: the instrument factory builds a histogram with
the given bucket bounds; its Go source is not under src/. -/
def newHistogram (name help : String) (labels : List (String × String))
    (buckets : List ℚ) : Instrument :=
  { kind := .histogram buckets
    name := argoNamespace ++ "_" ++ workflowsSubsystem ++ "_" ++ name
    help := help
    constLabels := labels }

/-- Modelled from the spec: `recoverMetricNameAndHelpFromDesc` (called at
metrics.go line 236, defined in a file not under src/) parses the instrument
name and help text back out of a rendered descriptor string (spec section
4.3: name equality drives the help-text check). -/
def recoverMetricNameAndHelpFromDesc (d : Desc) : String × String :=
  (d.fqName, d.help)

/-- Modelled from the spec: the workflow phases carrying a per-phase gauge
(`v1alpha1.NodePhase` is not under src/). -/
def nodePhases : List String :=
  ["Pending", "Running", "Succeeded", "Skipped", "Failed", "Error"]

/-- Modelled from the spec: `getWorkflowPhaseGauges` (metrics.go line 87,
defined in a file not under src/) builds one gauge per workflow phase,
labelled by that phase. -/
def getWorkflowPhaseGauges : List (String × Instrument) :=
  nodePhases.map fun p =>
    (p, newGauge "count" "Number of Workflows currently accessible by the controller by status"
      [("status", p)])

/-- Modelled from the spec: `getErrorCounters` (metrics.go line 90, defined
in a file not under src/) builds one counter per error cause, labelled by
that cause; the causes are declared at metrics.go lines 261-264. -/
def getErrorCounters : List (String × Instrument) :=
  [("OperationPanic",
      newCounter "error_count" "Number of errors encountered by the controller by cause"
        [("cause", "OperationPanic")]),
   ("CronWorkflowSubmissionError",
      newCounter "error_count" "Number of errors encountered by the controller by cause"
        [("cause", "CronWorkflowSubmissionError")])]

/-! ### The registry state -/

/-- A `customMetrics` map entry (`metric` struct, metrics.go lines 34-37). -/
structure MetricEntry : Type where
  metric : Instrument
  lastUpdated : Nat
deriving DecidableEq, Repr

/-- The registry state of metrics.go lines 39-69 (the `Metrics` struct),
restricted to the fields the verified operations read or write.  The mutex
serialises the operations; each operation is a single atomic state
transition here.  `logMetric` and the server configs are never touched by
the verified operations and are omitted. -/
structure Metrics : Type where
  workflowsProcessed : Instrument
  workflowsByPhase : List (String × Instrument)
  workflows : List (String × List String)
  operationDurations : Instrument
  errors : List (String × Instrument)
  customMetrics : List (String × MetricEntry)
  workqueueMetrics : List (String × Instrument)
  defaultMetricDescs : List Desc
  metricNameHelps : List (String × String)
  podDeletionLatency : Instrument
  podGCAddedToQueue : Instrument
  podGCRemovedFromQueue : Instrument
  podInformerAddPod : Instrument
  podInformerUpdatePod : Instrument
  podInformerDeletePod : Instrument
  processNextItemDuration : Instrument
  workflowQueueDepth : Instrument
  podQueueDepth : Instrument
  deadlineExceeded : Instrument
deriving DecidableEq, Repr

/-- `allMetrics` (metrics.go lines 124-155): the fixed instruments in source
order, then the per-phase gauges, the per-error-cause counters, the
workqueue instruments and the dynamic custom instruments. -/
def Metrics.allMetrics (m : Metrics) : List Instrument :=
  [m.workflowsProcessed,
   m.operationDurations,
   m.podDeletionLatency,
   m.podGCAddedToQueue,
   m.podGCRemovedFromQueue,
   m.podInformerAddPod,
   m.podInformerUpdatePod,
   m.podInformerDeletePod,
   m.processNextItemDuration,
   m.workflowQueueDepth,
   m.podQueueDepth,
   m.deadlineExceeded]
  ++ m.workflowsByPhase.map Prod.snd
  ++ m.errors.map Prod.snd
  ++ m.workqueueMetrics.map Prod.snd
  ++ m.customMetrics.map (fun p => p.2.metric)

/-- The `Metrics` value built by the struct literal of `New` (metrics.go
lines 83-109), before the `defaultMetricDescs` population loop runs. -/
def initMetrics : Metrics :=
  { workflowsProcessed :=
      newCounter "workflows_processed_count" "Number of workflow updates processed" []
    workflowsByPhase := getWorkflowPhaseGauges
    workflows := []
    operationDurations :=
      newHistogram "operation_duration_seconds" "Histogram of durations of operations" []
        [0.1, 0.25, 0.5, 0.75, 1.0, 1.25, 1.5, 1.75, 2.0, 2.5, 3.0]
    errors := getErrorCounters
    customMetrics := []
    workqueueMetrics := []
    defaultMetricDescs := []
    metricNameHelps := []
    podDeletionLatency := newGauge "wcustom_pod_deletion_latency" "Latency for pod deletion (ms)" []
    podGCAddedToQueue := newCounter "wcustom_pod_gc_added_to_queue" "Pod GC requests added to queue" []
    podGCRemovedFromQueue :=
      newCounter "wcustom_pod_gc_removed_from_queue" "Pod GC requests removed from queue" []
    podInformerAddPod :=
      newCounter "wcustom_pod_informer_add_pod" "Pod informer notified that a pod was added" []
    podInformerUpdatePod :=
      newCounter "wcustom_pod_informer_update_pod" "Pod informer notified that a pod was updated" []
    podInformerDeletePod :=
      newCounter "wcustom_pod_informer_delete_pod" "Pod informer notified that a pod was deleted" []
    processNextItemDuration :=
      newGauge "wcustom_process_next_item_duration" "Latency for processNextItem (ms)" []
    workflowQueueDepth := newGauge "wcustom_workflow_queue_depth" "Depth of workflow queue" []
    podQueueDepth := newGauge "wcustom_pod_queue_depth" "Depth of pod queue" []
    deadlineExceeded := newCounter "wcustom_deadline_exceeded" "Deadline exceeded" [] }

/-- `New` (metrics.go lines 82-122): the struct literal followed by the loop
`for metric in allMetrics: defaultMetricDescs[metric.Desc().String()] = true`
(lines 111-113).  The log hook registration has no effect on registry
state. -/
def New : Metrics :=
  { initMetrics with
      defaultMetricDescs :=
        initMetrics.allMetrics.foldl (fun acc i => setInsert acc i.desc) [] }

/-! ### Registry operations -/

/-- The two registration errors of `UpsertCustomMetric` (metrics.go lines
234 and 238), carrying the data interpolated into the Go error message. -/
inductive UpsertError : Type
  | descriptorCollision (d : Desc) : UpsertError
  | helpTextMismatch (name help existingHelp : String) : UpsertError
deriving DecidableEq, Repr

/-- The mutation suffix of a successful `UpsertCustomMetric` (metrics.go
lines 240-247): record the name-to-help binding, store the entry, and if
realtime, append the key to the owner's index (Go `append` on a possibly
missing slice reads as the empty list). -/
def upsertStore (m : Metrics) (key ownerKey : String) (newMetric : Instrument)
    (realtime : Bool) (now : Nat) (name help : String) : Metrics :=
  { m with
      metricNameHelps := mapInsert m.metricNameHelps name help
      customMetrics := mapInsert m.customMetrics key ⟨newMetric, now⟩
      workflows :=
        if realtime then
          mapInsert m.workflows ownerKey ((mapLookup m.workflows ownerKey).getD [] ++ [key])
        else m.workflows }

/-- `UpsertCustomMetric` (metrics.go lines 228-250).  Returns the new state
and `none` on success, or the unchanged state and the error; both Go error
returns happen before any mutation.  `now` stands for `time.Now()`. -/
def Metrics.upsertCustomMetric (m : Metrics) (key ownerKey : String)
    (newMetric : Instrument) (realtime : Bool) (now : Nat) : Metrics × Option UpsertError :=
  let metricDesc := newMetric.desc
  if metricDesc ∈ m.defaultMetricDescs then
    (m, some (.descriptorCollision metricDesc))
  else
    let name := (recoverMetricNameAndHelpFromDesc metricDesc).1
    let help := (recoverMetricNameAndHelpFromDesc metricDesc).2
    match mapLookup m.metricNameHelps name with
    | some existingHelp =>
        if help ≠ existingHelp then
          (m, some (.helpTextMismatch name help existingHelp))
        else
          (upsertStore m key ownerKey newMetric realtime now name help, none)
    | none => (upsertStore m key ownerKey newMetric realtime now name help, none)

/-- `StopRealtimeMetricsForKey` (metrics.go lines 197-211): if the owner key
has no index entry, return unchanged; otherwise delete every referenced
custom metric and then the owner's index entry. -/
def Metrics.stopRealtimeMetricsForKey (m : Metrics) (key : String) : Metrics :=
  match mapLookup m.workflows key with
  | none => m
  | some realtimeMetrics =>
      { m with
          customMetrics := eraseList m.customMetrics realtimeMetrics
          workflows := mapErase m.workflows key }

/-- `GetCustomMetric` (metrics.go lines 220-226): the zero `metric` struct
of a missing key has a nil instrument, i.e. an explicit absent result. -/
def Metrics.getCustomMetric (m : Metrics) (key : String) : Option Instrument :=
  (mapLookup m.customMetrics key).map MetricEntry.metric

/-- `NewDepthMetric` (metrics.go lines 283-292): memoized gauge per queue
name, stored under the key `name ++ "-depth"`; returns the new state and the
stored instrument. -/
def Metrics.newDepthMetric (m : Metrics) (name : String) : Metrics × Instrument :=
  let key := name ++ "-depth"
  match mapLookup m.workqueueMetrics key with
  | some inst => (m, inst)
  | none =>
      let inst := newGauge "queue_depth_count" "Depth of the queue" [("queue_name", name)]
      ({ m with workqueueMetrics := mapInsert m.workqueueMetrics key inst }, inst)

/-- `NewAddsMetric` (metrics.go lines 294-303): memoized counter per queue
name, stored under the key `name ++ "-adds"`. -/
def Metrics.newAddsMetric (m : Metrics) (name : String) : Metrics × Instrument :=
  let key := name ++ "-adds"
  match mapLookup m.workqueueMetrics key with
  | some inst => (m, inst)
  | none =>
      let inst := newCounter "queue_adds_count" "Adds to the queue" [("queue_name", name)]
      ({ m with workqueueMetrics := mapInsert m.workqueueMetrics key inst }, inst)

/-- `NewLatencyMetric` (metrics.go lines 305-314): memoized histogram per
queue name with buckets {1, 5, 20, 60, 180}, stored under `name ++
"-latency"`. -/
def Metrics.newLatencyMetric (m : Metrics) (name : String) : Metrics × Instrument :=
  let key := name ++ "-latency"
  match mapLookup m.workqueueMetrics key with
  | some inst => (m, inst)
  | none =>
      let inst := newHistogram "queue_latency" "Time objects spend waiting in the queue"
        [("queue_name", name)] [1.0, 5.0, 20.0, 60.0, 180.0]
      ({ m with workqueueMetrics := mapInsert m.workqueueMetrics key inst }, inst)

/-! ### Operation sequences and reachable states -/

/-- One state-mutating registry call. -/
inductive Op : Type
  | upsert (key ownerKey : String) (inst : Instrument) (realtime : Bool) (now : Nat) : Op
  | stop (key : String) : Op
  | depth (name : String) : Op
  | adds (name : String) : Op
  | latency (name : String) : Op
deriving DecidableEq, Repr

/-- Apply one call to the registry state (a failed upsert leaves the state
unchanged, exactly as the Go error paths do). -/
def applyOp (m : Metrics) : Op → Metrics
  | .upsert k o i r t => (m.upsertCustomMetric k o i r t).1
  | .stop k => m.stopRealtimeMetricsForKey k
  | .depth n => (m.newDepthMetric n).1
  | .adds n => (m.newAddsMetric n).1
  | .latency n => (m.newLatencyMetric n).1

/-- Run a sequence of calls from a state. -/
def runOps (m : Metrics) (ops : List Op) : Metrics :=
  ops.foldl applyOp m

/-- A state is reachable when some call sequence produces it from the
freshly constructed registry. -/
def Reachable (m : Metrics) : Prop :=
  ∃ ops : List Op, m = runOps New ops

/-- The descriptors of the built-in (static) instruments: those enumerated
by `allMetrics` on the freshly constructed registry. -/
def builtinDescs : List Desc :=
  initMetrics.allMetrics.map Instrument.desc

/-- The owner-index coherence invariant claimed by the spec: every key
listed in any owner's index is a key of the custom-metric map. -/
def OwnerCoherent (m : Metrics) : Prop :=
  ∀ o ks, mapLookup m.workflows o = some ks → ∀ k ∈ ks, mapLookup m.customMetrics k ≠ none

/-! ### Association-list lemmas -/

section MapLemmas

variable {β : Type}

theorem mapLookup_insert_self (m : List (String × β)) (k : String) (v : β) :
    mapLookup (mapInsert m k v) k = some v := by
  induction m with
  | nil => simp [mapLookup, mapInsert]
  | cons p rest ih =>
      obtain ⟨k', v'⟩ := p
      by_cases h : k' = k
      · simp [mapInsert, mapLookup, h]
      · simp [mapInsert, mapLookup, h, ih]

theorem mapLookup_insert_ne (m : List (String × β)) (k k' : String) (v : β) (h : k' ≠ k) :
    mapLookup (mapInsert m k v) k' = mapLookup m k' := by
  have hs : ¬k = k' := fun hh => h hh.symm
  induction m with
  | nil => simp [mapLookup, mapInsert, hs]
  | cons p rest ih =>
      obtain ⟨k0, v0⟩ := p
      by_cases h0 : k0 = k
      · simp [mapInsert, mapLookup, h0, hs]
      · simp [mapInsert, mapLookup, h0, ih]

theorem mapLookup_erase_ne (m : List (String × β)) (k k' : String) (h : k' ≠ k) :
    mapLookup (mapErase m k) k' = mapLookup m k' := by
  have hs : ¬k = k' := fun hh => h hh.symm
  induction m with
  | nil => simp [mapErase]
  | cons p rest ih =>
      obtain ⟨k0, v0⟩ := p
      by_cases h0 : k0 = k
      · simp [mapErase, mapLookup, h0, hs]
      · simp [mapErase, mapLookup, h0, ih]

theorem mapLookup_eq_none (m : List (String × β)) (k : String) :
    mapLookup m k = none ↔ k ∉ m.map Prod.fst := by
  induction m with
  | nil => simp [mapLookup]
  | cons p rest ih =>
      obtain ⟨k0, v0⟩ := p
      by_cases h0 : k0 = k
      · simp [mapLookup, h0]
      · have hs : ¬k = k0 := fun hh => h0 hh.symm
        simp [mapLookup, h0, ih, hs]

theorem mapErase_keys_sublist (m : List (String × β)) (k : String) :
    ((mapErase m k).map Prod.fst).Sublist (m.map Prod.fst) := by
  induction m with
  | nil => simp [mapErase]
  | cons p rest ih =>
      obtain ⟨k0, v0⟩ := p
      by_cases h0 : k0 = k
      · simp [mapErase, h0]
      · simpa [mapErase, h0] using ih.cons₂ k0

theorem mapLookup_erase_self (m : List (String × β)) (k : String) (h : keysNodup m) :
    mapLookup (mapErase m k) k = none := by
  induction m with
  | nil => simp [mapErase, mapLookup]
  | cons p rest ih =>
      obtain ⟨k0, v0⟩ := p
      have hnd : keysNodup rest := (List.nodup_cons.mp h).2
      by_cases h0 : k0 = k
      · subst h0
        have hstep : mapErase ((k0, v0) :: rest) k0 = rest := by simp [mapErase]
        rw [hstep, mapLookup_eq_none]
        exact (List.nodup_cons.mp h).1
      · simp [mapErase, mapLookup, h0, ih hnd]

theorem mapLookup_erase_none (m : List (String × β)) (k k' : String)
    (h : mapLookup m k = none) : mapLookup (mapErase m k') k = none := by
  rw [mapLookup_eq_none] at h ⊢
  exact fun hk => h ((mapErase_keys_sublist m k').mem hk)

theorem keysNodup_mapErase (m : List (String × β)) (k : String) (h : keysNodup m) :
    keysNodup (mapErase m k) :=
  h.sublist (mapErase_keys_sublist m k)

theorem mem_keys_mapInsert (m : List (String × β)) (k x : String) (v : β) :
    x ∈ (mapInsert m k v).map Prod.fst ↔ x ∈ m.map Prod.fst ∨ x = k := by
  induction m with
  | nil => simp [mapInsert]
  | cons p rest ih =>
      obtain ⟨k0, v0⟩ := p
      by_cases h0 : k0 = k
      · subst h0
        simp [mapInsert]
        tauto
      · simp [mapInsert, h0, ih]
        tauto

theorem keysNodup_mapInsert (m : List (String × β)) (k : String) (v : β) (h : keysNodup m) :
    keysNodup (mapInsert m k v) := by
  induction m with
  | nil => simp [mapInsert, keysNodup]
  | cons p rest ih =>
      obtain ⟨k0, v0⟩ := p
      obtain ⟨hnotin, hnd⟩ := List.nodup_cons.mp h
      by_cases h0 : k0 = k
      · subst h0
        have hstep : mapInsert ((k0, v0) :: rest) k0 v = (k0, v) :: rest := by
          simp [mapInsert]
        rw [keysNodup, hstep]
        exact List.nodup_cons.mpr ⟨hnotin, hnd⟩
      · have hstep : mapInsert ((k0, v0) :: rest) k v = (k0, v0) :: mapInsert rest k v := by
          simp [mapInsert, h0]
        rw [keysNodup, hstep]
        refine List.nodup_cons.mpr ⟨?_, ih hnd⟩
        rw [mem_keys_mapInsert]
        rintro (hk | hk)
        · exact hnotin hk
        · exact h0 hk

theorem count_keys_mapInsert (m : List (String × β)) (k : String) (v : β) (h : keysNodup m) :
    ((mapInsert m k v).map Prod.fst).count k = 1 := by
  induction m with
  | nil => simp [mapInsert]
  | cons p rest ih =>
      obtain ⟨k0, v0⟩ := p
      obtain ⟨hnotin, hnd⟩ := List.nodup_cons.mp h
      by_cases h0 : k0 = k
      · subst h0
        have : (rest.map Prod.fst).count k0 = 0 := List.count_eq_zero.mpr hnotin
        simp [mapInsert, List.count_cons, this]
      · simp [mapInsert, h0, List.count_cons, ih hnd, h0]

theorem mapLookup_eraseList_notMem (m : List (String × β)) (ks : List String) (k : String)
    (h : k ∉ ks) : mapLookup (eraseList m ks) k = mapLookup m k := by
  induction ks generalizing m with
  | nil => rfl
  | cons k0 rest ih =>
      have hne : k ≠ k0 := fun hk => h (hk ▸ List.mem_cons_self k0 rest)
      have hrest : k ∉ rest := fun hk => h (List.mem_cons_of_mem k0 hk)
      rw [eraseList, List.foldl_cons, ← eraseList, ih _ hrest, mapLookup_erase_ne _ _ _ hne]

theorem mapLookup_eraseList_none (m : List (String × β)) (ks : List String) (k : String)
    (h : mapLookup m k = none) : mapLookup (eraseList m ks) k = none := by
  induction ks generalizing m with
  | nil => exact h
  | cons k0 rest ih =>
      rw [eraseList, List.foldl_cons, ← eraseList]
      exact ih _ (mapLookup_erase_none _ _ _ h)

theorem keysNodup_eraseList (m : List (String × β)) (ks : List String) (h : keysNodup m) :
    keysNodup (eraseList m ks) := by
  induction ks generalizing m with
  | nil => exact h
  | cons k0 rest ih =>
      rw [eraseList, List.foldl_cons, ← eraseList]
      exact ih _ (keysNodup_mapErase _ _ h)

theorem mapLookup_eraseList_mem (m : List (String × β)) (ks : List String) (k : String)
    (hnd : keysNodup m) (h : k ∈ ks) : mapLookup (eraseList m ks) k = none := by
  induction ks generalizing m with
  | nil => cases h
  | cons k0 rest ih =>
      rw [eraseList, List.foldl_cons, ← eraseList]
      by_cases hk : k ∈ rest
      · exact ih _ (keysNodup_mapErase _ _ hnd) hk
      · have hk0 : k = k0 := by
          rcases List.mem_cons.mp h with h1 | h1
          · exact h1
          · exact absurd h1 hk
        subst hk0
        exact mapLookup_eraseList_none _ _ _ (mapLookup_erase_self _ _ hnd)

theorem mapLookup_mem (m : List (String × β)) (k : String) (v : β)
    (h : mapLookup m k = some v) : (k, v) ∈ m := by
  induction m with
  | nil => simp [mapLookup] at h
  | cons p rest ih =>
      obtain ⟨k0, v0⟩ := p
      by_cases h0 : k0 = k
      · subst h0
        rw [mapLookup, if_pos rfl] at h
        cases h
        exact List.mem_cons_self _ _
      · rw [mapLookup, if_neg h0] at h
        exact List.mem_cons_of_mem _ (ih h)

theorem self_mem_mapInsert (m : List (String × β)) (k : String) (v : β) :
    (k, v) ∈ mapInsert m k v := by
  induction m with
  | nil => simp [mapInsert]
  | cons p rest ih =>
      obtain ⟨k0, v0⟩ := p
      by_cases h0 : k0 = k
      · simp [mapInsert, h0]
      · simp [mapInsert, h0]
        tauto

theorem mem_foldl_setInsert {α γ : Type} [DecidableEq α] (f : γ → α) (l : List γ) (s : List α)
    (a : α) : a ∈ l.foldl (fun acc x => setInsert acc (f x)) s ↔ a ∈ s ∨ a ∈ l.map f := by
  induction l generalizing s with
  | nil => simp
  | cons x0 rest ih =>
      rw [List.foldl_cons, ih, List.map_cons, List.mem_cons]
      set x := f x0 with hx0
      by_cases hx : x ∈ s
      · rw [setInsert, if_pos hx]
        constructor
        · rintro (h1 | h1)
          · exact Or.inl h1
          · exact Or.inr (Or.inr h1)
        · rintro (h1 | h1 | h1)
          · exact Or.inl h1
          · exact Or.inl (h1 ▸ hx)
          · exact Or.inr h1
      · rw [setInsert, if_neg hx]
        simp only [List.mem_append, List.mem_singleton]
        tauto

end MapLemmas

/-! ### Operation-level helper lemmas -/

theorem recover_desc (i : Instrument) :
    recoverMetricNameAndHelpFromDesc i.desc = (i.name, i.help) := rfl

/-- `UpsertCustomMetric` takes exactly one of its three paths: descriptor
collision, help mismatch, or the success mutation. -/
theorem upsert_result (m : Metrics) (k o : String) (i : Instrument) (r : Bool) (t : Nat) :
    (i.desc ∈ m.defaultMetricDescs ∧
      m.upsertCustomMetric k o i r t = (m, some (.descriptorCollision i.desc))) ∨
    (∃ eh, i.desc ∉ m.defaultMetricDescs ∧ mapLookup m.metricNameHelps i.name = some eh ∧
      i.help ≠ eh ∧
      m.upsertCustomMetric k o i r t = (m, some (.helpTextMismatch i.name i.help eh))) ∨
    m.upsertCustomMetric k o i r t = (upsertStore m k o i r t i.name i.help, none) := by
  by_cases hd : i.desc ∈ m.defaultMetricDescs
  · exact Or.inl ⟨hd, by simp [Metrics.upsertCustomMetric, recover_desc, hd]⟩
  · cases hm : mapLookup m.metricNameHelps i.name with
    | none =>
        refine Or.inr (Or.inr ?_)
        simp [Metrics.upsertCustomMetric, recover_desc, hd, hm]
    | some eh =>
        by_cases he : i.help = eh
        · refine Or.inr (Or.inr ?_)
          simp [Metrics.upsertCustomMetric, recover_desc, hd, hm, he]
        · refine Or.inr (Or.inl ⟨eh, hd, rfl, he, ?_⟩)
          simp [Metrics.upsertCustomMetric, recover_desc, hd, hm, he]

/-- Characterization of a successful `UpsertCustomMetric`. -/
theorem upsert_ok_iff (m m1 : Metrics) (k o : String) (i : Instrument) (r : Bool) (t : Nat) :
    m.upsertCustomMetric k o i r t = (m1, none) ↔
      i.desc ∉ m.defaultMetricDescs ∧
      (mapLookup m.metricNameHelps i.name = none ∨
        mapLookup m.metricNameHelps i.name = some i.help) ∧
      m1 = upsertStore m k o i r t i.name i.help := by
  by_cases hd : i.desc ∈ m.defaultMetricDescs
  · simp [Metrics.upsertCustomMetric, recover_desc, hd]
  · cases hm : mapLookup m.metricNameHelps i.name with
    | none => simp [Metrics.upsertCustomMetric, recover_desc, hd, hm, eq_comm]
    | some eh =>
        by_cases he : i.help = eh
        · subst he
          simp [Metrics.upsertCustomMetric, recover_desc, hd, hm, eq_comm]
        · have he' : ¬eh = i.help := fun hh => he hh.symm
          simp [Metrics.upsertCustomMetric, recover_desc, hd, hm, he, he']

/-- A failed `UpsertCustomMetric` leaves the state unchanged. -/
theorem upsert_error_unchanged (m : Metrics) (k o : String) (i : Instrument) (r : Bool)
    (t : Nat) (e : UpsertError) (h : (m.upsertCustomMetric k o i r t).2 = some e) :
    (m.upsertCustomMetric k o i r t).1 = m := by
  rcases upsert_result m k o i r t with ⟨_, hc⟩ | ⟨eh, _, _, _, hc⟩ | hc <;> rw [hc]
  rw [hc] at h
  cases h

/-- `StopRealtimeMetricsForKey` on an owner with an index entry. -/
theorem stop_some (m : Metrics) (k : String) (ks : List String)
    (h : mapLookup m.workflows k = some ks) :
    m.stopRealtimeMetricsForKey k =
      { m with customMetrics := eraseList m.customMetrics ks
               workflows := mapErase m.workflows k } := by
  simp [Metrics.stopRealtimeMetricsForKey, h]

/-- `StopRealtimeMetricsForKey` on an owner with no index entry is a no-op. -/
theorem stop_none (m : Metrics) (k : String) (h : mapLookup m.workflows k = none) :
    m.stopRealtimeMetricsForKey k = m := by
  simp [Metrics.stopRealtimeMetricsForKey, h]

theorem applyOp_defaultMetricDescs (m : Metrics) (op : Op) :
    (applyOp m op).defaultMetricDescs = m.defaultMetricDescs := by
  cases op with
  | upsert k o i r t =>
      rcases upsert_result m k o i r t with ⟨_, hc⟩ | ⟨eh, _, _, _, hc⟩ | hc <;>
        simp [applyOp, hc, upsertStore]
  | stop k =>
      cases hw : mapLookup m.workflows k with
      | none => simp [applyOp, stop_none m k hw]
      | some ks => simp [applyOp, stop_some m k ks hw]
  | depth n =>
      cases hw : mapLookup m.workqueueMetrics (n ++ "-depth") <;>
        simp [applyOp, Metrics.newDepthMetric, hw]
  | adds n =>
      cases hw : mapLookup m.workqueueMetrics (n ++ "-adds") <;>
        simp [applyOp, Metrics.newAddsMetric, hw]
  | latency n =>
      cases hw : mapLookup m.workqueueMetrics (n ++ "-latency") <;>
        simp [applyOp, Metrics.newLatencyMetric, hw]

theorem runOps_defaultMetricDescs (m : Metrics) (ops : List Op) :
    (runOps m ops).defaultMetricDescs = m.defaultMetricDescs := by
  induction ops generalizing m with
  | nil => rfl
  | cons op rest ih =>
      rw [runOps, List.foldl_cons, ← runOps, ih, applyOp_defaultMetricDescs]

theorem new_defaults_eq :
    New.defaultMetricDescs
      = initMetrics.allMetrics.foldl (fun acc i => setInsert acc i.desc) [] := rfl

theorem builtin_mem_new_defaults (d : Desc) (h : d ∈ builtinDescs) :
    d ∈ New.defaultMetricDescs := by
  rw [new_defaults_eq, mem_foldl_setInsert]
  exact Or.inr h

/-! ### Well-formedness of reachable states -/

/-- The Go-map well-formedness of the two dynamic maps: distinct keys. -/
def WF (m : Metrics) : Prop :=
  keysNodup m.workflows ∧ keysNodup m.customMetrics

theorem wf_new : WF New :=
  ⟨List.nodup_nil, List.nodup_nil⟩

theorem wf_upsertStore (m : Metrics) (k o : String) (i : Instrument) (r : Bool) (t : Nat)
    (nm hp : String) (h : WF m) : WF (upsertStore m k o i r t nm hp) := by
  obtain ⟨h1, h2⟩ := h
  constructor
  · show keysNodup (if r then _ else m.workflows)
    cases r with
    | false => exact h1
    | true => exact keysNodup_mapInsert _ _ _ h1
  · exact keysNodup_mapInsert _ _ _ h2

theorem wf_applyOp (m : Metrics) (op : Op) (h : WF m) : WF (applyOp m op) := by
  cases op with
  | upsert k o i r t =>
      rcases upsert_result m k o i r t with ⟨_, hc⟩ | ⟨eh, _, _, _, hc⟩ | hc <;>
        simp only [applyOp, hc]
      · exact h
      · exact h
      · exact wf_upsertStore m k o i r t i.name i.help h
  | stop k =>
      cases hw : mapLookup m.workflows k with
      | none => simpa [applyOp, stop_none m k hw] using h
      | some ks =>
          rw [applyOp, stop_some m k ks hw]
          exact ⟨keysNodup_mapErase _ _ h.1, keysNodup_eraseList _ _ h.2⟩
  | depth n =>
      cases hw : mapLookup m.workqueueMetrics (n ++ "-depth") <;>
        simpa [applyOp, Metrics.newDepthMetric, hw] using h
  | adds n =>
      cases hw : mapLookup m.workqueueMetrics (n ++ "-adds") <;>
        simpa [applyOp, Metrics.newAddsMetric, hw] using h
  | latency n =>
      cases hw : mapLookup m.workqueueMetrics (n ++ "-latency") <;>
        simpa [applyOp, Metrics.newLatencyMetric, hw] using h

theorem wf_runOps (m : Metrics) (ops : List Op) (h : WF m) : WF (runOps m ops) := by
  induction ops generalizing m with
  | nil => exact h
  | cons op rest ih => exact ih _ (wf_applyOp m op h)

theorem reachable_wf (m : Metrics) (h : Reachable m) : WF m := by
  obtain ⟨ops, rfl⟩ := h
  exact wf_runOps _ _ wf_new

theorem reachable_applyOp (m : Metrics) (op : Op) (h : Reachable m) :
    Reachable (applyOp m op) := by
  obtain ⟨ops, rfl⟩ := h
  exact ⟨ops ++ [op], by simp [runOps]⟩

/-! ### The help registry only grows -/

/-- No operation removes or changes a name-to-help binding: a binding
present before any single call is present, with the same help text, after
it. -/
theorem applyOp_helps_mono (m : Metrics) (op : Op) (n h1 : String)
    (h : mapLookup m.metricNameHelps n = some h1) :
    mapLookup (applyOp m op).metricNameHelps n = some h1 := by
  cases op with
  | upsert k o i r t =>
      rcases upsert_result m k o i r t with ⟨_, hc⟩ | ⟨eh, _, _, _, hc⟩ | hc
      · simpa [applyOp, hc] using h
      · simpa [applyOp, hc] using h
      · have hok := (upsert_ok_iff m _ k o i r t).mp hc
        rcases hok with ⟨_, hdisj, _⟩
        simp only [applyOp, hc]
        show mapLookup (mapInsert m.metricNameHelps i.name i.help) n = some h1
        by_cases hn : i.name = n
        · subst hn
          rcases hdisj with hd | hd
          · rw [hd] at h
            cases h
          · rw [hd] at h
            injection h with h
            rw [mapLookup_insert_self, h]
        · have hn' : n ≠ i.name := fun hh => hn hh.symm
          rw [mapLookup_insert_ne _ _ _ _ hn']
          exact h
  | stop k =>
      cases hw : mapLookup m.workflows k with
      | none => simpa [applyOp, stop_none m k hw] using h
      | some ks => simpa [applyOp, stop_some m k ks hw] using h
  | depth n0 =>
      cases hw : mapLookup m.workqueueMetrics (n0 ++ "-depth") <;>
        simpa [applyOp, Metrics.newDepthMetric, hw] using h
  | adds n0 =>
      cases hw : mapLookup m.workqueueMetrics (n0 ++ "-adds") <;>
        simpa [applyOp, Metrics.newAddsMetric, hw] using h
  | latency n0 =>
      cases hw : mapLookup m.workqueueMetrics (n0 ++ "-latency") <;>
        simpa [applyOp, Metrics.newLatencyMetric, hw] using h

/-! ### Owner-index coherence -/

/-- A call respects a global owner assignment `own` when any realtime
registration of key `k` names `own k` as the owner. -/
def opRespectsOwner (own : String → String) : Op → Bool
  | .upsert k o _ r _ => !r || (o == own k)
  | _ => true

/-- Induction invariant for owner-index coherence: the owner index has
distinct keys, every indexed registration key is live, and every indexed
key sits in the index of the owner `own` assigns to it. -/
def OwnerInv (own : String → String) (m : Metrics) : Prop :=
  keysNodup m.workflows ∧
  ∀ o ks, mapLookup m.workflows o = some ks →
    ∀ k ∈ ks, mapLookup m.customMetrics k ≠ none ∧ own k = o

theorem ownerInv_new (own : String → String) : OwnerInv own New := by
  refine ⟨List.nodup_nil, fun o ks hks => ?_⟩
  cases hks

theorem ownerInv_upsertStore (own : String → String) (m : Metrics) (k o : String)
    (i : Instrument) (r : Bool) (t : Nat) (nm hp : String) (hinv : OwnerInv own m)
    (hro : r = true → o = own k) :
    OwnerInv own (upsertStore m k o i r t nm hp) := by
  obtain ⟨hnd, hcoh⟩ := hinv
  have hcmEq : (upsertStore m k o i r t nm hp).customMetrics
      = mapInsert m.customMetrics k ⟨i, t⟩ := rfl
  have hlive2 : ∀ k0, mapLookup m.customMetrics k0 ≠ none →
      mapLookup (upsertStore m k o i r t nm hp).customMetrics k0 ≠ none := by
    intro k0 hk0
    rw [hcmEq]
    by_cases hkk : k0 = k
    · rw [hkk, mapLookup_insert_self]
      exact fun hc => Option.noConfusion hc
    · rw [mapLookup_insert_ne _ _ _ _ hkk]
      exact hk0
  have hliveK : mapLookup (upsertStore m k o i r t nm hp).customMetrics k ≠ none := by
    rw [hcmEq, mapLookup_insert_self]
    exact fun hc => Option.noConfusion hc
  cases r with
  | false =>
      refine ⟨hnd, fun o' ks' hks' k' hk' => ?_⟩
      have hks0 : mapLookup m.workflows o' = some ks' := hks'
      obtain ⟨hl, hown⟩ := hcoh o' ks' hks0 k' hk'
      exact ⟨hlive2 k' hl, hown⟩
  | true =>
      have ho : o = own k := hro rfl
      have hwEq : (upsertStore m k o i true t nm hp).workflows
          = mapInsert m.workflows o ((mapLookup m.workflows o).getD [] ++ [k]) := rfl
      refine ⟨?_, fun o' ks' hks' k' hk' => ?_⟩
      · exact keysNodup_mapInsert _ _ _ hnd
      · rw [hwEq] at hks'
        by_cases ho' : o' = o
        · rw [ho', mapLookup_insert_self] at hks'
          injection hks' with hks'
          rw [← hks'] at hk'
          rcases List.mem_append.mp hk' with hold | hnew
          · cases hop : mapLookup m.workflows o with
            | none =>
                rw [hop] at hold
                simp at hold
            | some old =>
                rw [hop] at hold
                simp only [Option.getD_some] at hold
                obtain ⟨hl, hown⟩ := hcoh o old hop k' hold
                refine ⟨hlive2 k' hl, ?_⟩
                rw [ho']
                exact hown
          · have hkk : k' = k := by simpa using hnew
            rw [hkk, ho']
            exact ⟨hliveK, ho.symm⟩
        · rw [mapLookup_insert_ne _ _ _ _ ho'] at hks'
          obtain ⟨hl, hown⟩ := hcoh o' ks' hks' k' hk'
          exact ⟨hlive2 k' hl, hown⟩

theorem ownerInv_applyOp (own : String → String) (m : Metrics) (op : Op)
    (hinv : OwnerInv own m) (hop : opRespectsOwner own op = true) :
    OwnerInv own (applyOp m op) := by
  cases op with
  | upsert k o i r t =>
      rcases upsert_result m k o i r t with ⟨_, hc⟩ | ⟨eh, _, _, _, hc⟩ | hc
      · simpa [applyOp, hc] using hinv
      · simpa [applyOp, hc] using hinv
      · simp only [applyOp, hc]
        refine ownerInv_upsertStore own m k o i r t i.name i.help hinv ?_
        intro hr
        subst hr
        simpa [opRespectsOwner] using hop
  | stop sk =>
      cases hw : mapLookup m.workflows sk with
      | none => simpa [applyOp, stop_none m sk hw] using hinv
      | some ks =>
          obtain ⟨hnd, hcoh⟩ := hinv
          rw [applyOp, stop_some m sk ks hw]
          refine ⟨keysNodup_mapErase _ _ hnd, fun o' ks' hks' k' hk' => ?_⟩
          by_cases ho' : o' = sk
          · subst ho'
            rw [mapLookup_erase_self _ _ hnd] at hks'
            cases hks'
          · have ho'' : o' ≠ sk := ho'
            rw [mapLookup_erase_ne _ _ _ ho''] at hks'
            obtain ⟨hlive, hown⟩ := hcoh o' ks' hks' k' hk'
            have hnotin : k' ∉ ks := by
              intro hmem
              obtain ⟨_, hown2⟩ := hcoh sk ks hw k' hmem
              exact ho' (hown.symm.trans hown2)
            refine ⟨?_, hown⟩
            rw [show ({ m with customMetrics := eraseList m.customMetrics ks
                               workflows := mapErase m.workflows sk } : Metrics).customMetrics
                  = eraseList m.customMetrics ks from rfl]
            rw [mapLookup_eraseList_notMem _ _ _ hnotin]
            exact hlive
  | depth n0 =>
      cases hw : mapLookup m.workqueueMetrics (n0 ++ "-depth") <;>
        simpa [applyOp, Metrics.newDepthMetric, hw, OwnerInv] using hinv
  | adds n0 =>
      cases hw : mapLookup m.workqueueMetrics (n0 ++ "-adds") <;>
        simpa [applyOp, Metrics.newAddsMetric, hw, OwnerInv] using hinv
  | latency n0 =>
      cases hw : mapLookup m.workqueueMetrics (n0 ++ "-latency") <;>
        simpa [applyOp, Metrics.newLatencyMetric, hw, OwnerInv] using hinv

theorem ownerInv_runOps (own : String → String) (m : Metrics) (ops : List Op)
    (hinv : OwnerInv own m) (hops : ∀ op ∈ ops, opRespectsOwner own op = true) :
    OwnerInv own (runOps m ops) := by
  induction ops generalizing m with
  | nil => exact hinv
  | cons op rest ih =>
      rw [runOps, List.foldl_cons, ← runOps]
      refine ih _ (ownerInv_applyOp own m op hinv ?_) ?_
      · exact hops op (List.mem_cons_self _ _)
      · exact fun op' hop' => hops op' (List.mem_cons_of_mem _ hop')

/-! ### Concrete instruments for witnesses and counterexamples -/

/-- A dynamic counter with a fresh name. -/
def sampleCounter : Instrument :=
  { kind := .counter, name := "my_custom_total", help := "my custom help", constLabels := [] }

/-- A second dynamic counter with another fresh name. -/
def sampleCounter2 : Instrument :=
  { kind := .counter, name := "my_other_total", help := "other help", constLabels := [] }

/-- Reuses `sampleCounter`'s name with different help text. -/
def sampleCounterAltHelp : Instrument :=
  { kind := .counter, name := "my_custom_total", help := "changed help", constLabels := [] }

/-- Reuses the built-in processed-count instrument's fully qualified name
with different help text, so its descriptor does not collide with the
built-in descriptor. -/
def renamedProcessed : Instrument :=
  { kind := .counter, name := "argo_workflows_workflows_processed_count",
    help := "my different help", constLabels := [] }

/-- Shared core of the help-mismatch behaviour: when the descriptor check
passes but the name is bound to different help text, the upsert fails with
the help-mismatch error and the state is returned unchanged. -/
theorem upsert_mismatch_aux (m : Metrics) (k o n h1 : String) (i : Instrument)
    (r : Bool) (t : Nat) (hnc : i.desc ∉ m.defaultMetricDescs)
    (hreg : mapLookup m.metricNameHelps n = some h1)
    (hname : i.name = n) (hne : i.help ≠ h1) :
    m.upsertCustomMetric k o i r t = (m, some (.helpTextMismatch n i.help h1)) := by
  rcases upsert_result m k o i r t with ⟨hd, hc⟩ | ⟨eh, _, hm, hhe, hc⟩ | hc
  · exact absurd hd hnc
  · rw [hname, hreg] at hm
    injection hm with hm
    rw [hc, ← hname, hm]
  · obtain ⟨-, hdisj, -⟩ := (upsert_ok_iff m _ k o i r t).mp hc
    rcases hdisj with hnone | hsame
    · rw [hname, hreg] at hnone
      cases hnone
    · rw [hname, hreg] at hsame
      injection hsame with hx
      exact absurd hx.symm hne

/-! ### The claims -/

/-- Claim C1: in every reachable registry state, upserting an instrument
whose descriptor equals a built-in (static) instrument descriptor fails
with the descriptor-collision error, and the call returns the registry
state unchanged (custom-metric map, owner index and help registry
included). -/
theorem upsert_builtin_collision (ops : List Op) (k o : String) (i : Instrument)
    (r : Bool) (t : Nat) (hd : i.desc ∈ builtinDescs) :
    (runOps New ops).upsertCustomMetric k o i r t
      = (runOps New ops, some (.descriptorCollision i.desc)) := by
  have hmem : i.desc ∈ (runOps New ops).defaultMetricDescs := by
    rw [runOps_defaultMetricDescs]
    exact builtin_mem_new_defaults _ hd
  simp [Metrics.upsertCustomMetric, hmem]

theorem upsert_builtin_collision_witness :
    (runOps New []).upsertCustomMetric "wf-key" "owner" initMetrics.workflowsProcessed true 0
      = (runOps New [], some (.descriptorCollision initMetrics.workflowsProcessed.desc)) :=
  upsert_builtin_collision [] "wf-key" "owner" initMetrics.workflowsProcessed true 0 (by decide)

/-- Claim C2 counterexample: help registered for a name does not force the
help-mismatch error, because the descriptor-collision check runs first.
After registering the built-in processed-count name with different help
text, upserting the built-in instrument itself (same name, help differing
from the registered one) meets every hypothesis of the claim but returns
the descriptor-collision error, not the help-mismatch error. -/
theorem upsert_help_mismatch_cex :
    (New.upsertCustomMetric "c2key" "own" renamedProcessed false 0).2 = none ∧
    mapLookup (New.upsertCustomMetric "c2key" "own" renamedProcessed false 0).1.metricNameHelps
        "argo_workflows_workflows_processed_count" = some "my different help" ∧
    initMetrics.workflowsProcessed.name = "argo_workflows_workflows_processed_count" ∧
    initMetrics.workflowsProcessed.help ≠ "my different help" ∧
    ((New.upsertCustomMetric "c2key" "own" renamedProcessed false 0).1.upsertCustomMetric
          "c2key2" "own" initMetrics.workflowsProcessed false 1).2
        = some (.descriptorCollision initMetrics.workflowsProcessed.desc) ∧
    ((New.upsertCustomMetric "c2key" "own" renamedProcessed false 0).1.upsertCustomMetric
          "c2key2" "own" initMetrics.workflowsProcessed false 1).2
        ≠ some (.helpTextMismatch "argo_workflows_workflows_processed_count"
            initMetrics.workflowsProcessed.help "my different help") := by
  decide

/-- Claim C2 (amended): if name N is registered with help H1 and the new
instrument has name N, help H2 ≠ H1, and a descriptor that does not equal
any built-in descriptor (otherwise the collision error preempts), the
upsert fails with the help-mismatch error and the state — including the
first registration's entry — is returned unchanged. -/
theorem upsert_help_mismatch (m : Metrics) (k o n h1 : String) (i : Instrument)
    (r : Bool) (t : Nat) (hnc : i.desc ∉ m.defaultMetricDescs)
    (hreg : mapLookup m.metricNameHelps n = some h1)
    (hname : i.name = n) (hne : i.help ≠ h1) :
    m.upsertCustomMetric k o i r t = (m, some (.helpTextMismatch n i.help h1)) :=
  upsert_mismatch_aux m k o n h1 i r t hnc hreg hname hne

/-- The state after registering `sampleCounter` once. -/
def mFirstReg : Metrics := (New.upsertCustomMetric "k1" "own" sampleCounter false 0).1

theorem upsert_help_mismatch_witness :
    mFirstReg.upsertCustomMetric "k2" "own" sampleCounterAltHelp false 1
      = (mFirstReg, some (.helpTextMismatch "my_custom_total" "changed help" "my custom help")) :=
  upsert_help_mismatch mFirstReg "k2" "own" "my_custom_total" "my custom help"
    sampleCounterAltHelp false 1 (by decide) (by decide) rfl (by decide)

/-- Claim C3: from any reachable state, after two successful realtime
upserts under one owner key, stopping that owner makes both keys absent
from the custom-metric map, and a second stop of the same owner returns the
state unchanged (no error, no panic). -/
theorem stop_owner_lifecycle (m m1 m2 : Metrics) (k1 k2 o : String)
    (i1 i2 : Instrument) (t1 t2 : Nat) (hr : Reachable m)
    (h1 : m.upsertCustomMetric k1 o i1 true t1 = (m1, none))
    (h2 : m1.upsertCustomMetric k2 o i2 true t2 = (m2, none)) :
    (m2.stopRealtimeMetricsForKey o).getCustomMetric k1 = none ∧
    (m2.stopRealtimeMetricsForKey o).getCustomMetric k2 = none ∧
    (m2.stopRealtimeMetricsForKey o).stopRealtimeMetricsForKey o
      = m2.stopRealtimeMetricsForKey o := by
  have wf : WF m := reachable_wf m hr
  have wf1 : WF m1 := by
    have h := wf_applyOp m (.upsert k1 o i1 true t1) wf
    simpa [applyOp, h1] using h
  have wf2 : WF m2 := by
    have h := wf_applyOp m1 (.upsert k2 o i2 true t2) wf1
    simpa [applyOp, h2] using h
  obtain ⟨-, -, hm1⟩ := (upsert_ok_iff m m1 k1 o i1 true t1).mp h1
  obtain ⟨-, -, hm2⟩ := (upsert_ok_iff m1 m2 k2 o i2 true t2).mp h2
  have hw1 : mapLookup m1.workflows o
      = some ((mapLookup m.workflows o).getD [] ++ [k1]) := by
    rw [hm1]
    exact mapLookup_insert_self _ _ _
  have hw2 : mapLookup m2.workflows o
      = some (((mapLookup m.workflows o).getD [] ++ [k1]) ++ [k2]) := by
    rw [hm2]
    show mapLookup
        (mapInsert m1.workflows o ((mapLookup m1.workflows o).getD [] ++ [k2])) o = _
    rw [mapLookup_insert_self, hw1]
    rfl
  have hstop := stop_some m2 o _ hw2
  have hcm3 : (m2.stopRealtimeMetricsForKey o).customMetrics
      = eraseList m2.customMetrics (((mapLookup m.workflows o).getD [] ++ [k1]) ++ [k2]) := by
    rw [hstop]
  have hwf3 : mapLookup (m2.stopRealtimeMetricsForKey o).workflows o = none := by
    rw [hstop]
    exact mapLookup_erase_self _ _ wf2.1
  refine ⟨?_, ?_, ?_⟩
  · rw [Metrics.getCustomMetric, hcm3,
      mapLookup_eraseList_mem _ _ _ wf2.2
        (List.mem_append.mpr (Or.inl (List.mem_append.mpr (Or.inr (List.mem_singleton.mpr rfl)))))]
    rfl
  · rw [Metrics.getCustomMetric, hcm3,
      mapLookup_eraseList_mem _ _ _ wf2.2
        (List.mem_append.mpr (Or.inr (List.mem_singleton.mpr rfl)))]
    rfl
  · exact stop_none _ _ hwf3

/-- First witness state: one realtime upsert under owner run-A. -/
def mLifeA : Metrics := (New.upsertCustomMetric "m1" "run-A" sampleCounter true 0).1

/-- Second witness state: a second realtime upsert under owner run-A. -/
def mLifeB : Metrics := (mLifeA.upsertCustomMetric "m2" "run-A" sampleCounter2 true 1).1

theorem stop_owner_lifecycle_witness :
    (mLifeB.stopRealtimeMetricsForKey "run-A").getCustomMetric "m1" = none ∧
    (mLifeB.stopRealtimeMetricsForKey "run-A").getCustomMetric "m2" = none ∧
    (mLifeB.stopRealtimeMetricsForKey "run-A").stopRealtimeMetricsForKey "run-A"
      = mLifeB.stopRealtimeMetricsForKey "run-A" :=
  stop_owner_lifecycle New mLifeA mLifeB "m1" "m2" "run-A" sampleCounter sampleCounter2 0 1
    ⟨[], rfl⟩ rfl rfl

/-- The operation sequence refuting owner-index coherence: one key is
realtime-registered under two owners, then the first owner is stopped. -/
def opsSharedKey : List Op :=
  [.upsert "k" "A" sampleCounter true 0, .upsert "k" "B" sampleCounter true 1, .stop "A"]

/-- Claim C4 counterexample: a key realtime-upserted under owner A and then
under owner B is deleted from the custom-metric map when A is stopped, yet
it remains in B's index, so the reachable state violates owner-index
coherence. -/
theorem owner_coherence_cex : ¬ OwnerCoherent (runOps New opsSharedKey) := by
  intro h
  have hB : mapLookup (runOps New opsSharedKey).workflows "B" = some ["k"] := by decide
  have hk : mapLookup (runOps New opsSharedKey).customMetrics "k" = none := by decide
  exact h "B" ["k"] hB "k" (List.mem_singleton.mpr rfl) hk

/-- Claim C4 (amended): owner-index coherence — every key in any owner's
index is a key of the custom-metric map — holds in every state reachable by
sequences in which each key is only ever realtime-registered under one
owner (the assignment `own`); the counterexample shows the restriction is
necessary. -/
theorem owner_coherent_of_unique_owner (own : String → String) (ops : List Op)
    (hops : ∀ op ∈ ops, opRespectsOwner own op = true) :
    OwnerCoherent (runOps New ops) := by
  have hinv := ownerInv_runOps own New ops (ownerInv_new own) hops
  intro o ks hks k hk
  exact (hinv.2 o ks hks k hk).1

/-- A one-registration sequence respecting the constant owner assignment. -/
def opsSingleOwner : List Op := [.upsert "k" "A" sampleCounter true 0]

theorem owner_coherent_of_unique_owner_witness :
    mapLookup (runOps New opsSingleOwner).customMetrics "k" ≠ none := by
  have h := owner_coherent_of_unique_owner (fun _ => "A") opsSingleOwner (by decide)
  exact h "A" ["k"] (by decide) "k" (List.mem_singleton.mpr rfl)

/-- Claim C5 counterexample: two successful realtime upserts of the same
key under the same owner leave the key twice in the owner's index — the
append at metrics.go line 246 is unconditional, not idempotent. -/
theorem upsert_index_duplicate_cex :
    (New.upsertCustomMetric "k" "A" sampleCounter true 0).2 = none ∧
    ((New.upsertCustomMetric "k" "A" sampleCounter true 0).1.upsertCustomMetric
        "k" "A" sampleCounter true 1).2 = none ∧
    ((mapLookup ((New.upsertCustomMetric "k" "A" sampleCounter true 0).1.upsertCustomMetric
        "k" "A" sampleCounter true 1).1.workflows "A").getD []).count "k" = 2 ∧
    ((mapLookup ((New.upsertCustomMetric "k" "A" sampleCounter true 0).1.upsertCustomMetric
        "k" "A" sampleCounter true 1).1.workflows "A").getD []).count "k" ≠ 1 := by
  decide

/-- Claim C5 (amended): a successful realtime upsert appends the key to the
owner's index, so the key is in the index afterwards — but the append is
unconditional, so re-upserting an already-indexed key adds a duplicate
entry instead of being idempotent. -/
theorem upsert_realtime_appends (m m1 : Metrics) (k o : String) (i : Instrument)
    (t : Nat) (h : m.upsertCustomMetric k o i true t = (m1, none)) :
    mapLookup m1.workflows o = some ((mapLookup m.workflows o).getD [] ++ [k]) := by
  obtain ⟨-, -, hm1⟩ := (upsert_ok_iff m m1 k o i true t).mp h
  rw [hm1]
  exact mapLookup_insert_self _ _ _

theorem upsert_realtime_appends_witness :
    mapLookup (New.upsertCustomMetric "k" "A" sampleCounter true 0).1.workflows "A"
      = some ((mapLookup New.workflows "A").getD [] ++ ["k"]) :=
  upsert_realtime_appends New _ "k" "A" sampleCounter 0 rfl

/-- Claim C6: two successful upserts under the same key leave exactly one
entry under that key in the custom-metric map, and the lookup returns the
second instrument — a full replace. -/
theorem upsert_overwrite (m m1 m2 : Metrics) (k o : String) (i1 i2 : Instrument)
    (r : Bool) (t1 t2 : Nat) (hr : Reachable m)
    (h1 : m.upsertCustomMetric k o i1 r t1 = (m1, none))
    (h2 : m1.upsertCustomMetric k o i2 r t2 = (m2, none)) :
    (m2.customMetrics.map Prod.fst).count k = 1 ∧
    m2.getCustomMetric k = some i2 := by
  have wf : WF m := reachable_wf m hr
  have wf1 : WF m1 := by
    have h := wf_applyOp m (.upsert k o i1 r t1) wf
    simpa [applyOp, h1] using h
  obtain ⟨-, -, hm2⟩ := (upsert_ok_iff m1 m2 k o i2 r t2).mp h2
  constructor
  · rw [hm2]
    show ((mapInsert m1.customMetrics k ⟨i2, t2⟩).map Prod.fst).count k = 1
    exact count_keys_mapInsert _ _ _ wf1.2
  · rw [hm2]
    show (mapLookup (mapInsert m1.customMetrics k ⟨i2, t2⟩) k).map MetricEntry.metric = some i2
    rw [mapLookup_insert_self]
    rfl

/-- Witness state: `sampleCounter` stored under key k. -/
def mOverA : Metrics := (New.upsertCustomMetric "k" "A" sampleCounter false 0).1

/-- Witness state: `sampleCounter2` overwrites the entry under key k. -/
def mOverB : Metrics := (mOverA.upsertCustomMetric "k" "A" sampleCounter2 false 1).1

theorem upsert_overwrite_witness :
    (mOverB.customMetrics.map Prod.fst).count "k" = 1 ∧
    mOverB.getCustomMetric "k" = some sampleCounter2 :=
  upsert_overwrite New mOverA mOverB "k" "A" sampleCounter sampleCounter2 false 0 1
    ⟨[], rfl⟩ rfl rfl

/-- The scrape-then-mutate program: read the snapshot, then apply a
mutating call. -/
def snapshotThenOp (m : Metrics) (op : Op) : List Instrument × Metrics :=
  (m.allMetrics, applyOp m op)

/-- Claim C7: the snapshot returned before a mutation is exactly the
enumeration of the state at the moment of the call: neither its length nor
its elements depend on the mutation performed afterwards — the returned
sequence is a copy, not a live view. -/
theorem snapshot_stable (m : Metrics) (op op2 : Op) :
    (snapshotThenOp m op).1 = m.allMetrics ∧
    (snapshotThenOp m op).1.length = m.allMetrics.length ∧
    (snapshotThenOp m op).1 = (snapshotThenOp m op2).1 :=
  ⟨rfl, rfl, rfl⟩

/-- Claim C8: for each of depth, adds and latency, the first accessor call
for a queue name creates and stores the right instrument (gauge, counter,
histogram with buckets {1, 5, 20, 60, 180}), and a repeated call returns
the identical stored instrument with the state unchanged. -/
theorem queue_instrument_memoized (m : Metrics) (n : String)
    (hd : mapLookup m.workqueueMetrics (n ++ "-depth") = none)
    (ha : mapLookup m.workqueueMetrics (n ++ "-adds") = none)
    (hl : mapLookup m.workqueueMetrics (n ++ "-latency") = none) :
    ((m.newDepthMetric n).2
        = newGauge "queue_depth_count" "Depth of the queue" [("queue_name", n)] ∧
      (m.newDepthMetric n).2.kind = .gauge ∧
      mapLookup (m.newDepthMetric n).1.workqueueMetrics (n ++ "-depth")
        = some (m.newDepthMetric n).2 ∧
      (m.newDepthMetric n).1.newDepthMetric n = ((m.newDepthMetric n).1, (m.newDepthMetric n).2)) ∧
    ((m.newAddsMetric n).2
        = newCounter "queue_adds_count" "Adds to the queue" [("queue_name", n)] ∧
      (m.newAddsMetric n).2.kind = .counter ∧
      mapLookup (m.newAddsMetric n).1.workqueueMetrics (n ++ "-adds")
        = some (m.newAddsMetric n).2 ∧
      (m.newAddsMetric n).1.newAddsMetric n = ((m.newAddsMetric n).1, (m.newAddsMetric n).2)) ∧
    ((m.newLatencyMetric n).2
        = newHistogram "queue_latency" "Time objects spend waiting in the queue"
            [("queue_name", n)] [1.0, 5.0, 20.0, 60.0, 180.0] ∧
      (m.newLatencyMetric n).2.kind = .histogram [1, 5, 20, 60, 180] ∧
      mapLookup (m.newLatencyMetric n).1.workqueueMetrics (n ++ "-latency")
        = some (m.newLatencyMetric n).2 ∧
      (m.newLatencyMetric n).1.newLatencyMetric n
        = ((m.newLatencyMetric n).1, (m.newLatencyMetric n).2)) := by
  refine ⟨⟨?_, ?_, ?_, ?_⟩, ⟨?_, ?_, ?_, ?_⟩, ⟨?_, ?_, ?_, ?_⟩⟩ <;>
    simp [Metrics.newDepthMetric, Metrics.newAddsMetric, Metrics.newLatencyMetric,
      hd, ha, hl, mapLookup_insert_self, newGauge, newCounter, newHistogram]
  norm_num

theorem queue_instrument_memoized_witness :
    ((New.newDepthMetric "workflow").2
        = newGauge "queue_depth_count" "Depth of the queue" [("queue_name", "workflow")] ∧
      (New.newDepthMetric "workflow").2.kind = .gauge ∧
      mapLookup (New.newDepthMetric "workflow").1.workqueueMetrics ("workflow" ++ "-depth")
        = some (New.newDepthMetric "workflow").2 ∧
      (New.newDepthMetric "workflow").1.newDepthMetric "workflow"
        = ((New.newDepthMetric "workflow").1, (New.newDepthMetric "workflow").2)) ∧
    ((New.newAddsMetric "workflow").2
        = newCounter "queue_adds_count" "Adds to the queue" [("queue_name", "workflow")] ∧
      (New.newAddsMetric "workflow").2.kind = .counter ∧
      mapLookup (New.newAddsMetric "workflow").1.workqueueMetrics ("workflow" ++ "-adds")
        = some (New.newAddsMetric "workflow").2 ∧
      (New.newAddsMetric "workflow").1.newAddsMetric "workflow"
        = ((New.newAddsMetric "workflow").1, (New.newAddsMetric "workflow").2)) ∧
    ((New.newLatencyMetric "workflow").2
        = newHistogram "queue_latency" "Time objects spend waiting in the queue"
            [("queue_name", "workflow")] [1.0, 5.0, 20.0, 60.0, 180.0] ∧
      (New.newLatencyMetric "workflow").2.kind = .histogram [1, 5, 20, 60, 180] ∧
      mapLookup (New.newLatencyMetric "workflow").1.workqueueMetrics ("workflow" ++ "-latency")
        = some (New.newLatencyMetric "workflow").2 ∧
      (New.newLatencyMetric "workflow").1.newLatencyMetric "workflow"
        = ((New.newLatencyMetric "workflow").1, (New.newLatencyMetric "workflow").2)) :=
  queue_instrument_memoized New "workflow" rfl rfl rfl

/-- Claim C9: the snapshot enumeration contains the built-in instruments,
every per-phase gauge, every per-error-cause counter, every workqueue
instrument, and every live dynamic instrument; moreover the instrument of a
successful upsert and the instrument returned by each queue accessor are in
the snapshot of the resulting state. -/
theorem allMetrics_complete (m : Metrics) (n : String) :
    (∀ x ∈ [m.workflowsProcessed, m.operationDurations, m.podDeletionLatency,
        m.podGCAddedToQueue, m.podGCRemovedFromQueue, m.podInformerAddPod,
        m.podInformerUpdatePod, m.podInformerDeletePod, m.processNextItemDuration,
        m.workflowQueueDepth, m.podQueueDepth, m.deadlineExceeded], x ∈ m.allMetrics) ∧
    (∀ p ∈ m.workflowsByPhase, p.2 ∈ m.allMetrics) ∧
    (∀ p ∈ m.errors, p.2 ∈ m.allMetrics) ∧
    (∀ p ∈ m.workqueueMetrics, p.2 ∈ m.allMetrics) ∧
    (∀ p ∈ m.customMetrics, p.2.metric ∈ m.allMetrics) ∧
    (∀ k o i r t m1, m.upsertCustomMetric k o i r t = (m1, none) → i ∈ m1.allMetrics) ∧
    (m.newDepthMetric n).2 ∈ (m.newDepthMetric n).1.allMetrics ∧
    (m.newAddsMetric n).2 ∈ (m.newAddsMetric n).1.allMetrics ∧
    (m.newLatencyMetric n).2 ∈ (m.newLatencyMetric n).1.allMetrics := by
  refine ⟨?_, ?_, ?_, ?_, ?_, ?_, ?_, ?_, ?_⟩
  · intro x hx
    simp only [Metrics.allMetrics, List.mem_append]
    left; left; left; left
    exact hx
  · intro p hp
    simp only [Metrics.allMetrics, List.mem_append]
    left; left; left; right
    exact List.mem_map_of_mem _ hp
  · intro p hp
    simp only [Metrics.allMetrics, List.mem_append]
    left; left; right
    exact List.mem_map_of_mem _ hp
  · intro p hp
    simp only [Metrics.allMetrics, List.mem_append]
    left; right
    exact List.mem_map_of_mem _ hp
  · intro p hp
    simp only [Metrics.allMetrics, List.mem_append]
    right
    exact List.mem_map_of_mem _ hp
  · intro k o i r t m1 hok
    obtain ⟨-, -, hm1⟩ := (upsert_ok_iff m m1 k o i r t).mp hok
    rw [hm1]
    simp only [Metrics.allMetrics, List.mem_append]
    right
    have hcm : (upsertStore m k o i r t i.name i.help).customMetrics
        = mapInsert m.customMetrics k ⟨i, t⟩ := rfl
    rw [hcm]
    exact List.mem_map_of_mem _ (self_mem_mapInsert m.customMetrics k ⟨i, t⟩)
  · cases hq : mapLookup m.workqueueMetrics (n ++ "-depth") with
    | some inst =>
        simp only [Metrics.newDepthMetric, hq, Metrics.allMetrics, List.mem_append]
        left; right
        exact List.mem_map_of_mem _ (mapLookup_mem _ _ _ hq)
    | none =>
        simp only [Metrics.newDepthMetric, hq, Metrics.allMetrics, List.mem_append]
        left; right
        exact List.mem_map_of_mem _ (self_mem_mapInsert m.workqueueMetrics _ _)
  · cases hq : mapLookup m.workqueueMetrics (n ++ "-adds") with
    | some inst =>
        simp only [Metrics.newAddsMetric, hq, Metrics.allMetrics, List.mem_append]
        left; right
        exact List.mem_map_of_mem _ (mapLookup_mem _ _ _ hq)
    | none =>
        simp only [Metrics.newAddsMetric, hq, Metrics.allMetrics, List.mem_append]
        left; right
        exact List.mem_map_of_mem _ (self_mem_mapInsert m.workqueueMetrics _ _)
  · cases hq : mapLookup m.workqueueMetrics (n ++ "-latency") with
    | some inst =>
        simp only [Metrics.newLatencyMetric, hq, Metrics.allMetrics, List.mem_append]
        left; right
        exact List.mem_map_of_mem _ (mapLookup_mem _ _ _ hq)
    | none =>
        simp only [Metrics.newLatencyMetric, hq, Metrics.allMetrics, List.mem_append]
        left; right
        exact List.mem_map_of_mem _ (self_mem_mapInsert m.workqueueMetrics _ _)

theorem allMetrics_complete_witness :
    sampleCounter ∈ (New.upsertCustomMetric "k" "A" sampleCounter true 0).1.allMetrics ∧
    (New.newDepthMetric "workflow").2 ∈ (New.newDepthMetric "workflow").1.allMetrics := by
  have h := allMetrics_complete New "workflow"
  exact ⟨h.2.2.2.2.2.1 "k" "A" sampleCounter true 0
      (New.upsertCustomMetric "k" "A" sampleCounter true 0).1 rfl,
    h.2.2.2.2.2.2.1⟩

/-- `StopRealtimeMetricsForKey` never touches the help registry. -/
theorem stop_metricNameHelps (m : Metrics) (k : String) :
    (m.stopRealtimeMetricsForKey k).metricNameHelps = m.metricNameHelps := by
  cases hw : mapLookup m.workflows k with
  | none => rw [stop_none m k hw]
  | some ks => rw [stop_some m k ks hw]

/-- `StopRealtimeMetricsForKey` never touches the built-in descriptor
table. -/
theorem stop_defaults (m : Metrics) (k : String) :
    (m.stopRealtimeMetricsForKey k).defaultMetricDescs = m.defaultMetricDescs := by
  cases hw : mapLookup m.workflows k with
  | none => rw [stop_none m k hw]
  | some ks => rw [stop_some m k ks hw]

/-- The registry after realtime-registering the renamed processed-count
instrument under owner A, binding its name in the help registry. -/
def mRenamed : Metrics := (New.upsertCustomMetric "k1" "A" renamedProcessed true 0).1

/-- Claim C10 counterexample: the help binding does survive the stop, but a
later upsert reusing the name with different help text does not always fail
with the help-mismatch error — here its descriptor equals a built-in
descriptor, so the collision error preempts the help check. -/
theorem help_registry_permanent_cex :
    (New.upsertCustomMetric "k1" "A" renamedProcessed true 0).2 = none ∧
    (mRenamed.stopRealtimeMetricsForKey "A").customMetrics = [] ∧
    mapLookup (mRenamed.stopRealtimeMetricsForKey "A").metricNameHelps
        "argo_workflows_workflows_processed_count" = some "my different help" ∧
    initMetrics.workflowsProcessed.name = "argo_workflows_workflows_processed_count" ∧
    initMetrics.workflowsProcessed.help ≠ "my different help" ∧
    ((mRenamed.stopRealtimeMetricsForKey "A").upsertCustomMetric "k2" "B"
          initMetrics.workflowsProcessed false 1).2
        = some (.descriptorCollision initMetrics.workflowsProcessed.desc) ∧
    ((mRenamed.stopRealtimeMetricsForKey "A").upsertCustomMetric "k2" "B"
          initMetrics.workflowsProcessed false 1).2
        ≠ some (.helpTextMismatch "argo_workflows_workflows_processed_count"
            initMetrics.workflowsProcessed.help "my different help") := by
  decide

/-- Claim C10 (amended): the name-to-help binding is permanent — no single
call removes or changes it — and after a stop has deleted the entries, a
later upsert reusing the name with different help text and a descriptor
that does not equal any built-in descriptor still fails with the
help-mismatch error. -/
theorem help_registry_permanent (m : Metrics) (nm h1 : String)
    (hreg : mapLookup m.metricNameHelps nm = some h1) :
    (∀ op, mapLookup (applyOp m op).metricNameHelps nm = some h1) ∧
    (∀ sk k o i r t, i.name = nm → i.help ≠ h1 →
      i.desc ∉ m.defaultMetricDescs →
      (m.stopRealtimeMetricsForKey sk).upsertCustomMetric k o i r t
        = (m.stopRealtimeMetricsForKey sk, some (.helpTextMismatch nm i.help h1))) := by
  refine ⟨fun op => applyOp_helps_mono m op nm h1 hreg, ?_⟩
  intro sk k o i r t hname hne hnc
  refine upsert_mismatch_aux _ k o nm h1 i r t ?_ ?_ hname hne
  · rw [stop_defaults]
    exact hnc
  · rw [stop_metricNameHelps]
    exact hreg

/-- The registry after realtime-registering `sampleCounter` under owner A. -/
def mHelpBound : Metrics := (New.upsertCustomMetric "k1" "A" sampleCounter true 0).1

theorem help_registry_permanent_witness :
    mapLookup (applyOp mHelpBound (.stop "A")).metricNameHelps "my_custom_total"
      = some "my custom help" ∧
    (mHelpBound.stopRealtimeMetricsForKey "A").upsertCustomMetric "k2" "B"
        sampleCounterAltHelp false 1
      = (mHelpBound.stopRealtimeMetricsForKey "A",
         some (.helpTextMismatch "my_custom_total" "changed help" "my custom help")) := by
  have h := help_registry_permanent mHelpBound "my_custom_total" "my custom help" (by decide)
  exact ⟨h.1 (.stop "A"),
    h.2 "A" "k2" "B" sampleCounterAltHelp false 1 rfl (by decide) (by decide)⟩

end ArgoMetrics
